import Mathlib

/-!
Verification model of the `claude-code-rag-vector-db` repository.

The TypeScript sources are shallowly embedded: JS strings become `List Char`
(so that JS `length`, `split`, `trim`, `slice` and string concatenation have
direct, provable counterparts), numbers that the code uses as integral
counters/indices become `Nat`/`Int`, distances (floats only combined by
`1 - d`) become `ℚ`, and the external embedding model / vector store are
oracle parameters with explicit state threading and invocation counters.
-/

namespace Rag

/-- JS strings, modelled as lists of characters (`str.length`, `split`,
`trim`, slicing and concatenation all have exact list counterparts). -/
abbrev Str := List Char

/-- JS whitespace test used by `String.prototype.trim` and the regex class
`\s` (ASCII part: space, tab, newline, carriage return, vertical tab,
form feed; the unicode extras never appear in the inputs we reason about). -/
def isWs (c : Char) : Bool :=
  c = ' ' || c = '\t' || c = '\n' || c = '\r' || c = Char.ofNat 11 || c = Char.ofNat 12

/-- Leading-whitespace removal, first half of JS `trim()`. -/
def trimLeft (s : Str) : Str := s.dropWhile isWs

/-- Trailing-whitespace removal, second half of JS `trim()`. -/
def trimRight (s : Str) : Str := (s.reverse.dropWhile isWs).reverse

/-- JS `String.prototype.trim`. -/
def trim (s : Str) : Str := trimLeft (trimRight s)

/-- JS `content.split('\n')` (note `''.split('\n')` is `['']`, matching
`splitNl [] = [[]]`). -/
def splitNl : Str → List Str
  | [] => [[]]
  | c :: cs =>
    if c = '\n' then [] :: splitNl cs
    else
      match splitNl cs with
      | [] => [[c]]
      | l :: ls => (c :: l) :: ls

/-- JS `lines.join('\n')`. -/
def joinNl : List Str → Str
  | [] => []
  | [l] => l
  | l :: ls => l ++ '\n' :: joinNl ls

/-- A windowed chunk as produced by `CodeProcessor.chunkText`
(`{ content, lines: { start, end } }`, line numbers 1-based). -/
structure Chunk where
  content : Str
  lineStart : Nat
  lineEnd : Nat
deriving DecidableEq, Repr

/-- The `for` loop of `CodeProcessor.chunkText` (part_004 lines 342-371).
`lines` is the full line array, `rest` the lines not yet visited
(`rest = lines.drop i`), `cur` is `currentChunk`, `csl` is `chunkStartLine`
and `acc` the chunks pushed so far.  `maxCS`/`ov` are
`options.maxChunkSize`/`options.overlapSize`; `i - ov / 50` is
`Math.max(0, i - Math.floor(overlapSize / 50))` (truncated subtraction). -/
def chunkLoop (maxCS ov : Nat) (lines : List Str) :
    List Str → Nat → Str → Nat → List Chunk → List Chunk
  | [], _i, cur, csl, acc =>
    if trim cur = [] then acc
    else acc ++ [⟨trim cur, csl + 1, lines.length⟩]
  | line :: rest, i, cur, csl, acc =>
    if cur.length + line.length > maxCS then
      let acc' := if trim cur = [] then acc else acc ++ [⟨trim cur, csl + 1, i⟩]
      let oStart := i - ov / 50
      let cur' := joinNl ((lines.drop oStart).take (i + 1 - oStart))
      chunkLoop maxCS ov lines rest (i + 1) cur' oStart acc'
    else
      let csl' := if cur = [] then i else csl
      chunkLoop maxCS ov lines rest (i + 1) (cur ++ line ++ ['\n']) csl'  acc

/-- `CodeProcessor.chunkText` (part_004 lines 335-374): fixed-size windowed
chunking with overlap. -/
def chunkText (maxCS ov : Nat) (content : Str) : List Chunk :=
  let lines := splitNl content
  chunkLoop maxCS ov lines lines 0 [] 0 []

/-- `DEFAULT_OPTIONS.maxChunkSize` (part_004 line 64). -/
def defaultMaxChunkSize : Nat := 1000

/-- `DEFAULT_OPTIONS.overlapSize` (part_004 line 65). -/
def defaultOverlapSize : Nat := 100

/-! Basic lemmas about the string primitives. -/

theorem splitNl_ne_nil (s : Str) : splitNl s ≠ [] := by
  induction s with
  | nil => simp [splitNl]
  | cons c cs ih =>
    simp only [splitNl]
    split
    · simp
    · cases h : splitNl cs with
      | nil => exact absurd h ih
      | cons l ls => simp

theorem joinNl_splitNl (s : Str) : joinNl (splitNl s) = s := by
  induction s with
  | nil => simp [splitNl, joinNl]
  | cons c cs ih =>
    simp only [splitNl]
    split
    · rename_i h
      subst h
      cases h2 : splitNl cs with
      | nil => exact absurd h2 (splitNl_ne_nil cs)
      | cons l ls =>
        rw [h2] at ih
        simp [joinNl, ih]
    · cases h2 : splitNl cs with
      | nil => exact absurd h2 (splitNl_ne_nil cs)
      | cons l ls =>
        rw [h2] at ih
        cases ls with
        | nil => simp [joinNl] at ih ⊢; exact ih
        | cons l2 ls2 => simp [joinNl] at ih ⊢; exact ih

theorem length_joinNl (ls : List Str) :
    (joinNl ls).length = (ls.map List.length).sum + (ls.length - 1) := by
  induction ls with
  | nil => simp [joinNl]
  | cons l ls ih =>
    cases ls with
    | nil => simp [joinNl]
    | cons l2 ls2 =>
      simp only [joinNl] at ih ⊢
      simp only [List.length_append, List.length_cons, ih, List.map_cons, List.sum_cons]
      omega

/-- Any string splits as leading whitespace, its trim, and trailing
whitespace. -/
theorem trim_decomp (s : Str) :
    ∃ u v, s = u ++ trim s ++ v ∧ (∀ c ∈ u, isWs c) ∧ (∀ c ∈ v, isWs c) := by
  refine ⟨(trimRight s).takeWhile isWs, (s.reverse.takeWhile isWs).reverse, ?_, ?_, ?_⟩
  · have hR : s = trimRight s ++ (s.reverse.takeWhile isWs).reverse := by
      have h1 : s.reverse.takeWhile isWs ++ s.reverse.dropWhile isWs = s.reverse :=
        List.takeWhile_append_dropWhile isWs s.reverse
      have h2 := congrArg List.reverse h1
      simp only [List.reverse_append, List.reverse_reverse] at h2
      exact (h2.symm.trans rfl)
    have hL : trimRight s = (trimRight s).takeWhile isWs ++ trim s := by
      have h1 : (trimRight s).takeWhile isWs ++ (trimRight s).dropWhile isWs = trimRight s :=
        List.takeWhile_append_dropWhile isWs (trimRight s)
      exact h1.symm
    conv_lhs => rw [hR, hL]
  · intro c hc
    exact List.mem_takeWhile_imp hc
  · intro c hc
    rw [List.mem_reverse] at hc
    exact List.mem_takeWhile_imp hc

theorem length_trim_le (s : Str) : (trim s).length ≤ s.length := by
  obtain ⟨u, v, hs, _, _⟩ := trim_decomp s
  conv_rhs => rw [hs]
  simp
  omega

theorem trim_eq_nil_of_allWs {s : Str} (h : ∀ c ∈ s, isWs c) : trim s = [] := by
  have h1 : s.reverse.dropWhile isWs = [] := by
    rw [List.dropWhile_eq_nil_iff]
    intro c hc
    exact h c (List.mem_reverse.mp hc)
  simp [trim, trimLeft, trimRight, h1]

theorem allWs_of_trim_eq_nil {s : Str} (h : trim s = []) : ∀ c ∈ s, isWs c := by
  obtain ⟨u, v, hs, hu, hv⟩ := trim_decomp s
  rw [h] at hs
  intro c hc
  rw [hs] at hc
  simp at hc
  rcases hc with h1 | h1
  · exact hu c h1
  · exact hv c h1

theorem trim_trim_ne_nil {s : Str} (h : trim s ≠ []) : trim (trim s) ≠ [] := by
  intro h2
  apply h
  apply trim_eq_nil_of_allWs
  obtain ⟨u, v, hs, hu, hv⟩ := trim_decomp s
  have hmid := allWs_of_trim_eq_nil h2
  intro c hc
  rw [hs] at hc
  simp at hc
  rcases hc with h1 | h1 | h1
  · exact hu c h1
  · exact hmid c h1
  · exact hv c h1

theorem trim_append_ws {c : Char} (s : Str) (h : isWs c) : trim (s ++ [c]) = trim s := by
  have hR : trimRight (s ++ [c]) = trimRight s := by
    simp only [trimRight, List.reverse_append, List.reverse_cons, List.reverse_nil,
      List.nil_append, List.singleton_append]
    rw [List.dropWhile_cons_of_pos h]
  simp [trim, hR]

/-- The sliding-overlap window `lines.slice(Math.max(0, i - Math.floor(ov/50)), i+1)`
that `chunkText` joins to restart `currentChunk` after an overflow at line `i`. -/
def windowAt (ov : Nat) (lines : List Str) (i : Nat) : Str :=
  joinNl ((lines.drop (i - ov / 50)).take (i + 1 - (i - ov / 50)))

theorem drop_cons_succ {lines : List Str} {i : Nat} {line : Str} {rest : List Str}
    (h : lines.drop i = line :: rest) : lines.drop (i + 1) = rest := by
  have : lines.drop (i + 1) = (lines.drop i).drop 1 := by
    rw [List.drop_drop]
  rw [this, h]
  rfl

theorem lt_length_of_drop_cons {lines : List Str} {i : Nat} {line : Str} {rest : List Str}
    (h : lines.drop i = line :: rest) : i < lines.length := by
  by_contra hle
  push_neg at hle
  rw [List.drop_eq_nil_of_le hle] at h
  exact List.noConfusion h

/-- Size invariant for the `chunkText` loop: as long as every overlap window
joined at an overflow point fits in `maxCS`, every emitted chunk (and the
running `currentChunk`, after trimming) fits in `maxCS`. -/
theorem chunkLoop_size (maxCS ov : Nat) (lines : List Str)
    (H : ∀ i, i < lines.length → (windowAt ov lines i).length ≤ maxCS) :
    ∀ rest i cur csl acc,
    lines.drop i = rest →
    (trim cur).length ≤ maxCS →
    (∀ c ∈ acc, c.content.length ≤ maxCS) →
    ∀ c ∈ chunkLoop maxCS ov lines rest i cur csl acc, c.content.length ≤ maxCS := by
  intro rest
  induction rest with
  | nil =>
    intro i cur csl acc _hdrop hcur hacc c hc
    simp only [chunkLoop] at hc
    split at hc
    · exact hacc c hc
    · simp at hc
      rcases hc with hc | hc
      · exact hacc c hc
      · rw [hc]
        exact hcur
  | cons line rest ih =>
    intro i cur csl acc hdrop hcur hacc c hc
    simp only [chunkLoop] at hc
    split at hc
    · -- overflow branch: push (maybe) and restart from the overlap window
      refine ih (i + 1) _ _ _ (drop_cons_succ hdrop) ?_ ?_ c hc
      · calc (trim (windowAt ov lines i)).length
            ≤ (windowAt ov lines i).length := length_trim_le _
          _ ≤ maxCS := H i (lt_length_of_drop_cons hdrop)
      · intro d hd
        split at hd
        · exact hacc d hd
        · simp at hd
          rcases hd with hd | hd
          · exact hacc d hd
          · rw [hd]
            exact hcur
    · -- accumulate branch: currentChunk gains `line ++ "\n"` and stays small
      rename_i hsize
      push_neg at hsize
      refine ih (i + 1) _ _ _ (drop_cons_succ hdrop) ?_ hacc c hc
      have h1 : cur ++ line ++ ['\n'] = (cur ++ line) ++ ['\n'] := by simp
      rw [h1, trim_append_ws (cur ++ line) (by simp [isWs])]
      calc (trim (cur ++ line)).length
          ≤ (cur ++ line).length := length_trim_le _
        _ = cur.length + line.length := List.length_append _ _
        _ ≤ maxCS := hsize

/-- A chunk's recorded 1-based line range covers 0-based line `j`. -/
def covers (c : Chunk) (j : Nat) : Prop := c.lineStart ≤ j + 1 ∧ j + 1 ≤ c.lineEnd

theorem getD_of_drop_cons {lines : List Str} {i : Nat} {line : Str} {rest : List Str}
    (h : lines.drop i = line :: rest) : lines.getD i [] = line := by
  induction lines generalizing i with
  | nil => simp at h
  | cons x xs ih =>
    cases i with
    | zero =>
      simp at h
      exact h.1
    | succ i =>
      exact ih (by simpa using h)

theorem mem_slice_getD {ls : List Str} {a b j : Nat}
    (h1 : a ≤ j) (h2 : j < a + b) (h3 : j < ls.length) :
    ls.getD j [] ∈ (ls.drop a).take b := by
  have hq : ((ls.drop a).take b)[j - a]? = some ls[j] := by
    rw [List.getElem?_take]
    have hjb : j - a < b := by omega
    simp only [hjb, if_true]
    rw [List.getElem?_drop]
    have : a + (j - a) = j := by omega
    rw [this]
    exact List.getElem?_eq_getElem h3
  have hmem := List.getElem?_mem hq
  have hD : ls.getD j [] = ls[j] := by
    rw [List.getD_eq_getElem?_getD, List.getElem?_eq_getElem h3]
    rfl
  rw [hD]
  exact hmem

theorem mem_joinNl {ls : List Str} {l : Str} (hl : l ∈ ls) {c : Char} (hc : c ∈ l) :
    c ∈ joinNl ls := by
  induction ls with
  | nil => simp at hl
  | cons x xs ih =>
    cases xs with
    | nil =>
      simp at hl
      rw [hl] at hc
      simpa [joinNl] using hc
    | cons y ys =>
      simp only [joinNl]
      rcases List.mem_cons.mp hl with h | h
      · rw [h] at hc
        simp [hc]
      · simp [ih h]

/-- Coverage invariant for the `chunkText` loop: every 0-based line holding a
non-whitespace character below `chunkStartLine` is already covered, and the
lines from `chunkStartLine` up to `i` all sit inside `currentChunk`; then every
non-whitespace line of the file ends up covered by some emitted chunk. -/
theorem chunkLoop_cover (maxCS ov : Nat) (lines : List Str) :
    ∀ rest i cur csl acc,
    lines.drop i = rest →
    csl ≤ i →
    (∀ j, j < csl → (∃ ch ∈ lines.getD j [], ¬ isWs ch) → ∃ c ∈ acc, covers c j) →
    (∀ j, csl ≤ j → j < i → ∀ ch ∈ lines.getD j [], ch ∈ cur) →
    ∀ j, j < lines.length → (∃ ch ∈ lines.getD j [], ¬ isWs ch) →
      ∃ c ∈ chunkLoop maxCS ov lines rest i cur csl acc, covers c j := by
  intro rest
  induction rest with
  | nil =>
    intro i cur csl acc hdrop hcsl hcov hcur j hj hnws
    have hil : lines.length ≤ i := by
      by_contra hlt
      push_neg at hlt
      rw [List.drop_eq_nil_iff] at hdrop
      omega
    simp only [chunkLoop]
    by_cases hjc : j < csl
    · obtain ⟨c, hc, hcov⟩ := hcov j hjc hnws
      split
      · exact ⟨c, hc, hcov⟩
      · exact ⟨c, List.mem_append_left _ hc, hcov⟩
    · push_neg at hjc
      obtain ⟨ch, hch, hnw⟩ := hnws
      have hchcur : ch ∈ cur := hcur j hjc (by omega) ch hch
      have htr : trim cur ≠ [] := by
        intro htr
        exact hnw (allWs_of_trim_eq_nil htr ch hchcur)
      rw [if_neg htr]
      refine ⟨⟨trim cur, csl + 1, lines.length⟩, by simp, ?_, ?_⟩
      · simp
        omega
      · simp
        omega
  | cons line rest ih =>
    intro i cur csl acc hdrop hcsl hcov hcur j hj hnws
    have hiL : i < lines.length := lt_length_of_drop_cons hdrop
    have hline : lines.getD i [] = line := getD_of_drop_cons hdrop
    simp only [chunkLoop]
    split
    · -- overflow branch
      refine ih (i + 1) _ _ _ (drop_cons_succ hdrop) (by omega) ?_ ?_ j hj hnws
      · -- lines below the new chunkStartLine (the window start) are covered
        intro k hk hknws
        by_cases hkc : k < csl
        · obtain ⟨c, hc, hcv⟩ := hcov k hkc hknws
          split
          · exact ⟨c, hc, hcv⟩
          · exact ⟨c, List.mem_append_left _ hc, hcv⟩
        · push_neg at hkc
          obtain ⟨ch, hch, hnw⟩ := hknws
          have hki : k < i := by omega
          have hchcur : ch ∈ cur := hcur k hkc hki ch hch
          have htr : trim cur ≠ [] := by
            intro htr
            exact hnw (allWs_of_trim_eq_nil htr ch hchcur)
          rw [if_neg htr]
          refine ⟨⟨trim cur, csl + 1, i⟩, by simp, by simp; omega, by simp; omega⟩
      · -- the restarted currentChunk contains all lines from the window start
        intro k hk1 hk2 ch hch
        have hmem : lines.getD k [] ∈ (lines.drop (i - ov / 50)).take (i + 1 - (i - ov / 50)) := by
          apply mem_slice_getD hk1 ?_ (by omega)
          omega
        exact mem_joinNl hmem hch
    · -- accumulate branch
      refine ih (i + 1) _ _ _ (drop_cons_succ hdrop) ?_ ?_ ?_ j hj hnws
      · split <;> omega
      · intro k hk hknws
        split at hk
        · -- currentChunk was empty: everything below `i` was whitespace-only
          rename_i hcureq
          by_cases hkc : k < csl
          · exact hcov k hkc hknws
          · push_neg at hkc
            obtain ⟨ch, hch, _⟩ := hknws
            have := hcur k hkc (by omega) ch hch
            rw [hcureq] at this
            simp at this
        · exact hcov k hk hknws
      · intro k hk1 hk2 ch hch
        have hk2' : k < i + 1 := hk2
        by_cases hki : k < i
        · have hkcsl : csl ≤ k := by
            split at hk1 <;> omega
          have := hcur k hkcsl hki ch hch
          simp [this]
        · have hkeq : k = i := by omega
          rw [hkeq, hline] at hch
          simp [hch]


/-- The value of `currentChunk` after the accumulate branch has consumed the
lines of `pre` in order: each line followed by the `'\n'` appended by
`currentChunk += line + '\n'`. -/
def trailJoin (ls : List Str) : Str := ls.foldr (fun l r => l ++ '\n' :: r) []

theorem trailJoin_append_single (pre : List Str) (l : Str) :
    trailJoin (pre ++ [l]) = trailJoin pre ++ l ++ ['\n'] := by
  induction pre with
  | nil => simp [trailJoin]
  | cons x xs ih => simp [trailJoin] at ih ⊢; simp [ih]

theorem trailJoin_ne_nil {ls : List Str} (h : ls ≠ []) : trailJoin ls ≠ [] := by
  cases ls with
  | nil => exact absurd rfl h
  | cons x xs => simp [trailJoin]

theorem trailJoin_length (ls : List Str) :
    (trailJoin ls).length = (ls.map List.length).sum + ls.length := by
  induction ls with
  | nil => simp [trailJoin]
  | cons x xs ih =>
    simp [trailJoin] at ih ⊢
    omega

theorem trailJoin_eq_joinNl {ls : List Str} (h : ls ≠ []) :
    trailJoin ls = joinNl ls ++ ['\n'] := by
  induction ls with
  | nil => exact absurd rfl h
  | cons x xs ih =>
    cases xs with
    | nil => simp [trailJoin, joinNl]
    | cons y ys =>
      have hstep : trailJoin (x :: y :: ys) = x ++ '\n' :: trailJoin (y :: ys) := rfl
      rw [hstep, ih (by simp)]
      simp [joinNl]

/-- When the whole file is smaller than `maxChunkSize`, the overflow branch of
the `chunkText` loop never fires: the loop just accumulates every line and
emits the single final chunk (or nothing when the content is whitespace-only). -/
theorem chunkLoop_small (maxCS ov : Nat) (lines : List Str)
    (hsum : (lines.map List.length).sum + (lines.length - 1) < maxCS) :
    ∀ rest pre, lines = pre ++ rest → pre ≠ [] →
    chunkLoop maxCS ov lines rest pre.length (trailJoin pre) 0 [] =
      if trim (trailJoin lines) = [] then []
      else [⟨trim (trailJoin lines), 1, lines.length⟩] := by
  intro rest
  induction rest with
  | nil =>
    intro pre hpre _hne
    rw [List.append_nil] at hpre
    subst hpre
    simp [chunkLoop]
  | cons line rest ih =>
    intro pre hpre hne
    have hlen : (trailJoin pre).length + line.length ≤ maxCS := by
      rw [trailJoin_length]
      have h1 : (lines.map List.length).sum =
          (pre.map List.length).sum + line.length + (rest.map List.length).sum := by
        rw [hpre]
        simp
        omega
      have h2 : lines.length = pre.length + 1 + rest.length := by
        rw [hpre]
        simp
        omega
      omega
    simp only [chunkLoop]
    rw [if_neg (by omega)]
    rw [if_neg (by
      cases h : trailJoin pre with
      | nil => exact absurd h (trailJoin_ne_nil hne)
      | cons a b => simp)]
    have hstep : trailJoin pre ++ line ++ ['\n'] = trailJoin (pre ++ [line]) :=
      (trailJoin_append_single pre line).symm
    rw [hstep]
    have hlen2 : pre.length + 1 = (pre ++ [line]).length := by simp
    rw [hlen2]
    exact ih (pre ++ [line]) (by rw [hpre]; simp) (by simp)

/-- Unfolding the first iteration of `chunkText` on content smaller than the
maximum chunk size. -/
theorem chunkText_small (maxCS ov : Nat) (content : Str)
    (hlen : content.length < maxCS) :
    chunkText maxCS ov content =
      if trim content = [] then []
      else [⟨trim content, 1, (splitNl content).length⟩] := by
  unfold chunkText
  have hjoin := joinNl_splitNl content
  have hlj := length_joinNl (splitNl content)
  cases hl : splitNl content with
  | nil => exact absurd hl (splitNl_ne_nil content)
  | cons l0 ls0 =>
    rw [hl] at hjoin hlj
    rw [hjoin] at hlj
    have hsum : ((l0 :: ls0).map List.length).sum + ((l0 :: ls0).length - 1) < maxCS := by
      omega
    have hl0 : l0.length ≤ maxCS - 1 := by
      simp at hsum
      omega
    simp only [chunkLoop]
    rw [if_neg (by simp; omega)]
    simp only [ite_self, if_true, List.nil_append]
    have e1 : l0 ++ ['\n'] = trailJoin [l0] := by simp [trailJoin]
    have e2 : (0 + 1 : Nat) = ([l0] : List Str).length := by simp
    rw [e1, e2]
    rw [chunkLoop_small maxCS ov (l0 :: ls0) hsum ls0 [l0] (by simp) (by simp)]
    have htj : trim (trailJoin (l0 :: ls0)) = trim content := by
      rw [trailJoin_eq_joinNl (by simp), hjoin]
      exact trim_append_ws content (by simp [isWs])
    rw [htj]


/-- Emitted chunks always have non-empty (even after another trim) content:
the push sites are guarded by `if (currentChunk.trim())`. -/
theorem chunkLoop_nonempty (maxCS ov : Nat) (lines : List Str) :
    ∀ rest i cur csl acc,
    (∀ c ∈ acc, trim c.content ≠ []) →
    ∀ c ∈ chunkLoop maxCS ov lines rest i cur csl acc, trim c.content ≠ [] := by
  intro rest
  induction rest with
  | nil =>
    intro i cur csl acc hacc c hc
    simp only [chunkLoop] at hc
    split at hc
    · exact hacc c hc
    · rename_i htr
      simp at hc
      rcases hc with hc | hc
      · exact hacc c hc
      · rw [hc]
        exact trim_trim_ne_nil htr
  | cons line rest ih =>
    intro i cur csl acc hacc c hc
    simp only [chunkLoop] at hc
    split at hc
    · refine ih (i + 1) _ _ _ ?_ c hc
      intro d hd
      split at hd
      · exact hacc d hd
      · rename_i htr
        simp at hd
        rcases hd with hd | hd
        · exact hacc d hd
        · rw [hd]
          exact trim_trim_ne_nil htr
    · exact ih (i + 1) _ _ _ hacc c hc

theorem dropWhile_eq_self_of_not {p : Char → Bool} {l : Str} (h : ∀ c ∈ l, ¬ p c) :
    l.dropWhile p = l := by
  cases l with
  | nil => rfl
  | cons c t => exact List.dropWhile_cons_of_neg (by simpa using h c (by simp))

theorem trim_of_noWs {s : Str} (h : ∀ c ∈ s, ¬ isWs c) : trim s = s := by
  have hR : trimRight s = s := by
    unfold trimRight
    rw [dropWhile_eq_self_of_not (by intro c hc; exact h c (List.mem_reverse.mp hc))]
    exact List.reverse_reverse s
  unfold trim trimLeft
  rw [hR]
  exact dropWhile_eq_self_of_not h

theorem splitNl_single {s : Str} (h : ∀ c ∈ s, c ≠ '\n') : splitNl s = [s] := by
  induction s with
  | nil => rfl
  | cons c cs ih =>
    simp only [splitNl]
    rw [if_neg (by simpa using h c (by simp))]
    rw [ih (by intro d hd; exact h d (by simp [hd]))]

/-- C1, refuting counterexample input: one line of 1001 `'a'`s. -/
def c1cex : Str := List.replicate 1001 'a'

/-- Claim C1 as stated is false at the default options: a single line longer
than `maxChunkSize` is emitted whole, producing a chunk of 1001 > 1000
characters. -/
theorem claim_C1_counterexample :
    ∃ c ∈ chunkText defaultMaxChunkSize defaultOverlapSize c1cex,
      defaultMaxChunkSize < c.content.length := by
  have hchars : ∀ c ∈ c1cex, c = 'a' := by
    intro c hc
    exact List.eq_of_mem_replicate hc
  have hs : splitNl c1cex = [c1cex] :=
    splitNl_single (by intro c hc; rw [hchars c hc]; decide)
  have htr : trim c1cex = c1cex :=
    trim_of_noWs (by intro c hc; rw [hchars c hc]; decide)
  have hlen : c1cex.length = 1001 := by simp only [c1cex, List.length_replicate]
  unfold chunkText
  rw [hs]
  simp only [chunkLoop]
  rw [if_pos (by simp only [List.length_nil, hlen, defaultMaxChunkSize]; omega)]
  have h0 : trim ([] : Str) = [] := rfl
  rw [if_pos h0]
  have hcur : joinNl ((([c1cex] : List Str).drop (0 - defaultOverlapSize / 50)).take
      (0 + 1 - (0 - defaultOverlapSize / 50))) = c1cex := by
    simp [joinNl]
  rw [hcur]
  rw [if_neg (by rw [htr]; simp [c1cex])]
  refine ⟨⟨trim c1cex, 0 - defaultOverlapSize / 50 + 1, ([c1cex] : List Str).length⟩, by simp, ?_⟩
  rw [htr]
  simp only [hlen, defaultMaxChunkSize]
  omega

/-- C1 (amended): every chunk emitted by `chunkText` has non-empty text (it
stays non-empty after trimming), and, provided every joined overlap window
(the up-to-`⌊overlapSize/50⌋` preceding lines together with the current line)
fits within `maxChunkSize`, every chunk's content length is at most
`maxChunkSize`.  (The original claim's unconditional size bound is refuted by
`claim_C1_counterexample`.) -/
theorem claim_C1 (maxCS ov : Nat) (content : Str) :
    (∀ c ∈ chunkText maxCS ov content, c.content ≠ [] ∧ trim c.content ≠ []) ∧
    ((∀ i, i < (splitNl content).length →
        (windowAt ov (splitNl content) i).length ≤ maxCS) →
      ∀ c ∈ chunkText maxCS ov content, c.content.length ≤ maxCS) := by
  constructor
  · intro c hc
    have hne : trim c.content ≠ [] := by
      refine chunkLoop_nonempty maxCS ov (splitNl content) (splitNl content) 0 [] 0 []
        (by intro d hd; exact absurd hd (List.not_mem_nil d)) c hc
    refine ⟨?_, hne⟩
    intro hnil
    apply hne
    rw [hnil]
    rfl
  · intro H c hc
    refine chunkLoop_size maxCS ov (splitNl content) H (splitNl content) 0 [] 0 []
      (List.drop_zero _) (by simp [trim, trimLeft, trimRight])
      (by intro d hd; exact absurd hd (List.not_mem_nil d)) c hc

/-- Witness for C1: the non-emptiness half at a concrete chunk, and the size
half at a concrete input satisfying the window hypothesis. -/
theorem claim_C1_witness :
    ((⟨['a', 'b', '\n', 'c', 'd'], 1, 2⟩ : Chunk).content ≠ [] ∧
      trim (⟨['a', 'b', '\n', 'c', 'd'], 1, 2⟩ : Chunk).content ≠ []) ∧
    (⟨['a', 'b', '\n', 'c', 'd'], 1, 2⟩ : Chunk).content.length ≤ 1000 :=
  ⟨(claim_C1 1000 100 ['a', 'b', '\n', 'c', 'd']).1 _ (by decide),
    (claim_C1 1000 100 ['a', 'b', '\n', 'c', 'd']).2 (by decide) _ (by decide)⟩

/-- Claim C2 as stated is false: the file consisting of a single space is
non-empty yet windowed chunking emits no chunk at all, so its only line is
covered by nothing. -/
theorem claim_C2_counterexample :
    ([' '] : Str) ≠ [] ∧ (splitNl [' ']).length = 1 ∧
    ¬ ∃ c ∈ chunkText defaultMaxChunkSize defaultOverlapSize [' '], covers c 0 := by
  refine ⟨by simp, by decide, ?_⟩
  have h : chunkText defaultMaxChunkSize defaultOverlapSize [' '] = [] := by decide
  rw [h]
  rintro ⟨c, hc, _⟩
  exact absurd hc (List.not_mem_nil c)

/-- C2 (amended): every line of the file that contains at least one
non-whitespace character is covered by the line range of at least one chunk
produced by `chunkText` (ranges may overlap).  Whitespace-only lines can be
left uncovered, refuting the original claim (`claim_C2_counterexample`). -/
theorem claim_C2 (maxCS ov : Nat) (content : Str) (j : Nat)
    (hj : j < (splitNl content).length)
    (hnws : ∃ ch ∈ (splitNl content).getD j [], ¬ isWs ch) :
    ∃ c ∈ chunkText maxCS ov content, covers c j := by
  refine chunkLoop_cover maxCS ov (splitNl content) (splitNl content) 0 [] 0 []
    (List.drop_zero _) (le_refl 0) ?_ ?_ j hj hnws
  · intro k hk
    omega
  · intro k hk1 hk2
    omega

/-- Witness for C2 at a concrete input. -/
theorem claim_C2_witness :
    ∃ c ∈ chunkText 1000 100 ['a', '\n', 'b'], covers c 1 :=
  claim_C2 1000 100 ['a', '\n', 'b'] 1 (by decide) (by decide)

/-- Claim C3 as stated is false: a single space is shorter than the maximum
chunk size but yields zero chunks, not one. -/
theorem claim_C3_counterexample :
    ([' '] : Str).length < defaultMaxChunkSize ∧
    chunkText defaultMaxChunkSize defaultOverlapSize [' '] = [] := by
  constructor
  · decide
  · decide

/-- C3 (amended): empty content yields zero chunks; content shorter than the
maximum chunk size whose trimmed form is non-empty yields exactly one chunk
holding the trimmed content.  (Whitespace-only short content yields zero
chunks, refuting the unconditional one-chunk claim;
`claim_C3_counterexample`.) -/
theorem claim_C3 (maxCS ov : Nat) (content : Str)
    (h1 : content.length < maxCS) (h2 : trim content ≠ []) :
    chunkText maxCS ov [] = [] ∧
    chunkText maxCS ov content = [⟨trim content, 1, (splitNl content).length⟩] := by
  constructor
  · unfold chunkText
    have h0 : splitNl ([] : Str) = [[]] := rfl
    rw [h0]
    simp only [chunkLoop]
    rw [if_neg (by simp)]
    rw [if_pos (by decide)]
  · rw [chunkText_small maxCS ov content h1, if_neg h2]

/-- Witness for C3 at a concrete input. -/
theorem claim_C3_witness :
    chunkText 1000 100 [] = [] ∧
    chunkText 1000 100 ['a', 'b'] = [⟨trim ['a', 'b'], 1, (splitNl ['a', 'b']).length⟩] :=
  claim_C3 1000 100 ['a', 'b'] (by decide) (by decide)


/-! Structural extraction: a small backtracking regex engine faithful to the
JS `String.prototype.match` semantics needed by `getLanguagePatterns`
(leftmost match position, ordered alternation, greedy `+`/`?`/`*` and lazy
`*?` over character classes, numbered capture groups). -/

/-- Regex ASTs for the patterns of `CodeProcessor.getLanguagePatterns`.
Stars and pluses only ever apply to single-character classes in those
patterns, so they are restricted to classes here (which makes the
backtracking matcher structurally terminating). -/
inductive Re where
  | eps : Re
  | lit : Str → Re
  | cls : (Char → Bool) → Re
  | seq : Re → Re → Re
  | alt : Re → Re → Re
  | opt : Re → Re
  | starG : (Char → Bool) → Re
  | starL : (Char → Bool) → Re
  | plusG : (Char → Bool) → Re
  | grp : Nat → Re → Re

/-- Numbered capture groups recorded on the successful backtracking path. -/
abbrev Caps := List (Nat × Str)

/-- Strip a literal from the head of the input. -/
def stripLit : Str → Str → Option Str
  | [], s => some s
  | _ :: _, [] => none
  | c :: l, d :: s => if c = d then stripLit l s else none

/-- First success of `k` over the candidate repeat counts, in order. -/
def firstSome (k : Nat → Option Caps) : List Nat → Option Caps
  | [] => none
  | n :: ns =>
    match k n with
    | some r => some r
    | none => firstSome k ns

/-- Backtracking matcher in continuation-passing style: `matchRe r s cs k`
attempts to match `r` at the head of `s` and calls `k` with the remaining
input and extended captures; alternatives are tried left-first, repeat counts
longest-first for greedy and shortest-first for lazy operators, exactly the
JS backtracking order. -/
def matchRe : Re → Str → Caps → (Str → Caps → Option Caps) → Option Caps
  | .eps, s, cs, k => k s cs
  | .lit l, s, cs, k =>
    match stripLit l s with
    | some s2 => k s2 cs
    | none => none
  | .cls p, s, cs, k =>
    match s with
    | [] => none
    | c :: s2 => if p c then k s2 cs else none
  | .seq a b, s, cs, k => matchRe a s cs (fun s2 cs2 => matchRe b s2 cs2 k)
  | .alt a b, s, cs, k =>
    match matchRe a s cs k with
    | some r => some r
    | none => matchRe b s cs k
  | .opt a, s, cs, k =>
    match matchRe a s cs k with
    | some r => some r
    | none => k s cs
  | .starG p, s, cs, k =>
    firstSome (fun m => k (s.drop m) cs) (List.range ((s.takeWhile p).length + 1)).reverse
  | .starL p, s, cs, k =>
    firstSome (fun m => k (s.drop m) cs) (List.range ((s.takeWhile p).length + 1))
  | .plusG p, s, cs, k =>
    firstSome (fun m => k (s.drop m) cs)
      (((List.range ((s.takeWhile p).length + 1)).reverse).filter (fun m => 1 ≤ m))
  | .grp n a, s, cs, k =>
    matchRe a s cs (fun s2 cs2 => k s2 ((n, s.take (s.length - s2.length)) :: cs2))

/-- JS `line.match(re)` without flags: try the pattern at every position left
to right and return the captures of the first successful match. -/
def reSearch (r : Re) : Str → Option Caps
  | [] => matchRe r [] [] (fun _ cs => some cs)
  | c :: s2 =>
    match matchRe r (c :: s2) [] (fun _ cs => some cs) with
    | some cs => some cs
    | none => reSearch r s2

/-- Capture-group lookup (`match[n]`); `none` is JS `undefined` for a group
that did not participate. -/
def capGet (cs : Caps) (n : Nat) : Option Str :=
  match cs.find? (fun p => decide (p.1 = n)) with
  | some p => some p.2
  | none => none

/-- JS `x || y` over possibly-undefined strings (both `undefined` and the
empty string are falsy). -/
def orFalsy (a : Option Str) (b : Str) : Str :=
  match a with
  | some s => if s = [] then b else s
  | none => b

/-- JS regex `\w`. -/
def wordChar (c : Char) : Bool :=
  ('a' ≤ c && c ≤ 'z') || ('A' ≤ c && c ≤ 'Z') || ('0' ≤ c && c ≤ '9') || c = '_'

/-- JS regex `.` (anything but a newline). -/
def dotChar (c : Char) : Bool := !(c = '\n')

/-- JS regex class `[:=]`. -/
def colonEq (c : Char) : Bool := c = ':' || c = '='

/-- Regex literal from a string literal. -/
def litS (s : String) : Re := .lit s.data

/-- The `function`/`class` regex pair of one language entry of
`getLanguagePatterns` (source field names `function` and `class`;
`class` is a Lean keyword, hence `funcPat`/`classPat`). -/
structure LangPatterns where
  funcPat : Re
  classPat : Re

/-- `/(?:function\s+(\w+)|(\w+)\s*[:=]\s*(?:function|\(.*?\)\s*=>)|\s*(\w+)\s*\(.*?\)\s*{)/` -/
def jsFunctionRe : Re :=
  .alt (.seq (litS "function") (.seq (.plusG isWs) (.grp 1 (.plusG wordChar))))
    (.alt
      (.seq (.grp 2 (.plusG wordChar)) (.seq (.starG isWs) (.seq (.cls colonEq)
        (.seq (.starG isWs)
          (.alt (litS "function")
            (.seq (litS "(") (.seq (.starL dotChar) (.seq (litS ")")
              (.seq (.starG isWs) (litS "=>"))))))))))
      (.seq (.starG isWs) (.seq (.grp 3 (.plusG wordChar)) (.seq (.starG isWs)
        (.seq (litS "(") (.seq (.starL dotChar) (.seq (litS ")")
          (.seq (.starG isWs) (litS "\x7b")))))))))

/-- `/class\s+(\w+)/` -/
def simpleClassRe : Re :=
  .seq (litS "class") (.seq (.plusG isWs) (.grp 1 (.plusG wordChar)))

/-- `/def\s+(\w+)/` -/
def pythonFunctionRe : Re :=
  .seq (litS "def") (.seq (.plusG isWs) (.grp 1 (.plusG wordChar)))

/-- `/(?:public|private|protected)?\s*(?:static)?\s*\w+\s+(\w+)\s*\(/` -/
def javaFunctionRe : Re :=
  .seq (.opt (.alt (litS "public") (.alt (litS "private") (litS "protected"))))
    (.seq (.starG isWs) (.seq (.opt (litS "static")) (.seq (.starG isWs)
      (.seq (.plusG wordChar) (.seq (.plusG isWs) (.seq (.grp 1 (.plusG wordChar))
        (.seq (.starG isWs) (litS "("))))))))

/-- `/(?:public|private)?\s*class\s+(\w+)/` -/
def javaClassRe : Re :=
  .seq (.opt (.alt (litS "public") (litS "private")))
    (.seq (.starG isWs) (.seq (litS "class") (.seq (.plusG isWs)
      (.grp 1 (.plusG wordChar)))))

/-- `/\w+\s+(\w+)\s*\(/` -/
def cppFunctionRe : Re :=
  .seq (.plusG wordChar) (.seq (.plusG isWs) (.seq (.grp 1 (.plusG wordChar))
    (.seq (.starG isWs) (litS "("))))

/-- The `javascript` entry of `getLanguagePatterns` (identical regexes in the
`typescript` entry). -/
def jsPatterns : LangPatterns := ⟨jsFunctionRe, simpleClassRe⟩

/-- `CodeProcessor.getLanguagePatterns` (part_004 lines 283-308):
`patterns[language] || patterns.javascript`. -/
def getLanguagePatterns (language : Str) : LangPatterns :=
  if language = "javascript".data then jsPatterns
  else if language = "typescript".data then ⟨jsFunctionRe, simpleClassRe⟩
  else if language = "python".data then ⟨pythonFunctionRe, simpleClassRe⟩
  else if language = "java".data then ⟨javaFunctionRe, javaClassRe⟩
  else if language = "cpp".data then ⟨cppFunctionRe, simpleClassRe⟩
  else jsPatterns

/-- Net brace count of one line (the two `if`s of the inner loops of
`extractBlock`); `Int` because the JS counter can go negative. -/
def braceDelta (l : Str) : Int :=
  l.foldl (fun bc c => if c = '{' then bc + 1 else if c = '}' then bc - 1 else bc) 0

/-- The scan loop of `CodeProcessor.extractBlock` (part_004 lines 322-329):
`for (i = startIndex+1; i < lines.length && braceCount > 0; i++)`. -/
def ebLoop : List Str → Nat → Int → Nat → Nat
  | [], _i, _bc, endI => endI
  | l :: rest, i, bc, endI =>
    if bc > 0 then ebLoop rest (i + 1) (bc + braceDelta l) i
    else endI

/-- `CodeProcessor.extractBlock` (part_004 lines 310-333): returns the block
content (lines `startIndex..endIndex` joined) and the end line index. -/
def extractBlock (lines : List Str) (startIndex : Nat) : Str × Nat :=
  let startLine := lines.getD startIndex []
  let bc := braceDelta startLine
  let endIndex := ebLoop (lines.drop (startIndex + 1)) (startIndex + 1) bc startIndex
  (joinNl ((lines.drop startIndex).take (endIndex + 1 - startIndex)), endIndex)

/-- `element.type` of `extractStructuralElements` (`'function' | 'class'`;
`class` is a Lean keyword, hence `cls`). -/
inductive SType where
  | function : SType
  | cls : SType
deriving DecidableEq, Repr

/-- String rendering of `element.type` as used in document ids. -/
def sTypeStr : SType → Str
  | .function => "function".data
  | .cls => "class".data

/-- One structural element as collected by `extractStructuralElements`. -/
structure StructElem where
  ty : SType
  name : Str
  content : Str
  lineStart : Nat
  lineEnd : Nat
deriving DecidableEq, Repr

/-- The per-line loop of `CodeProcessor.extractStructuralElements` (part_004
lines 242-278): check the function pattern, then the class pattern, pushing
an element (with its brace-balanced block) for each match.  The name is
`functionMatch[1] || functionMatch[2] || 'anonymous'` and `classMatch[1]`
(rendered `"undefined"` by the template literal if the group were absent). -/
def esLoop (pats : LangPatterns) (lines : List Str) : List Str → Nat → List StructElem
  | [], _ => []
  | line :: rest, i =>
    let fPart : List StructElem :=
      match reSearch pats.funcPat line with
      | some caps =>
        let functionName := orFalsy (capGet caps 1) (orFalsy (capGet caps 2) ("anonymous".data))
        let blk := extractBlock lines i
        [⟨.function, functionName, blk.1, i + 1, blk.2 + 1⟩]
      | none => []
    let cPart : List StructElem :=
      match reSearch pats.classPat line with
      | some caps =>
        let className := (capGet caps 1).getD ("undefined".data)
        let blk := extractBlock lines i
        [⟨.cls, className, blk.1, i + 1, blk.2 + 1⟩]
      | none => []
    fPart ++ cPart ++ esLoop pats lines rest (i + 1)

/-- `CodeProcessor.extractStructuralElements` (part_004 lines 224-281). -/
def extractStructuralElements (content language : Str) : List StructElem :=
  let lines := splitNl content
  esLoop (getLanguagePatterns language) lines lines 0

/-- Decimal rendering of a chunk index as in the JS template literal
`${index}`. -/
def natToChars (n : Nat) : Str :=
  if n = 0 then ['0'] else ((Nat.digits 10 n).map Nat.digitChar).reverse

/-- A `Document` as assembled by `CodeProcessor` (vector/client.ts lines
6-17; the nested `metadata` object is flattened into fields). -/
structure Document where
  id : Str
  content : Str
  filepath : Str
  dtype : Str
  language : Str
  lineStart : Nat
  lineEnd : Nat
  functionName : Option Str
  className : Option Str
deriving DecidableEq, Repr

/-- Structural-element document of `chunkCode` (part_004 lines 190-202):
id `${filepath}:${element.type}:${element.name}` and metadata
`[element.type]: element.name`. -/
def structDoc (filepath language : Str) (e : StructElem) : Document :=
  { id := filepath ++ ':' :: (sTypeStr e.ty ++ ':' :: e.name)
  , content := e.content
  , filepath := filepath
  , dtype := "code".data
  , language := language
  , lineStart := e.lineStart
  , lineEnd := e.lineEnd
  , functionName := if e.ty = SType.function then some e.name else none
  , className := if e.ty = SType.cls then some e.name else none }

/-- The windowed-chunk loop of `chunkCode` (part_004 lines 205-219):
`chunks.forEach((chunk, index) => if (chunk.content.trim()) push(...))` with
id `${filepath}:chunk:${index}`. -/
def chunkDocsLoop (filepath language : Str) : List Chunk → Nat → List Document
  | [], _ => []
  | c :: cs, i =>
    (if trim c.content = [] then []
     else [{ id := filepath ++ ':' :: ("chunk".data ++ ':' :: natToChars i)
           , content := c.content
           , filepath := filepath
           , dtype := "code".data
           , language := language
           , lineStart := c.lineStart
           , lineEnd := c.lineEnd
           , functionName := none
           , className := none }])
    ++ chunkDocsLoop filepath language cs (i + 1)

/-- `CodeProcessor.chunkCode` (part_004 lines 183-222). -/
def chunkCode (maxCS ov : Nat) (content filepath language : Str) : List Document :=
  let elems := extractStructuralElements content language
  let structDocs := elems.map (structDoc filepath language)
  let chunks := chunkText maxCS ov content
  structDocs ++ chunkDocsLoop filepath language chunks 0

/-- The documentation-file loop of `processFile` (part_004 lines 161-173):
every windowed chunk becomes a document with id `${relativePath}:doc:${index}`
(no trim filter on this path). -/
def docDocsLoop (filepath language : Str) : List Chunk → Nat → List Document
  | [], _ => []
  | c :: cs, i =>
    { id := filepath ++ ':' :: ("doc".data ++ ':' :: natToChars i)
    , content := c.content
    , filepath := filepath
    , dtype := "doc".data
    , language := language
    , lineStart := c.lineStart
    , lineEnd := c.lineEnd
    , functionName := none
    , className := none } :: docDocsLoop filepath language cs (i + 1)

/-- `LANGUAGE_EXTENSIONS` (part_004 lines 78-109). -/
def langExts : List (Str × Str) :=
  [ (".js".data, "javascript".data)
  , (".jsx".data, "javascript".data)
  , (".ts".data, "typescript".data)
  , (".tsx".data, "typescript".data)
  , (".py".data, "python".data)
  , (".java".data, "java".data)
  , (".cpp".data, "cpp".data)
  , (".cc".data, "cpp".data)
  , (".cxx".data, "cpp".data)
  , (".c".data, "c".data)
  , (".h".data, "c".data)
  , (".hpp".data, "cpp".data)
  , (".cs".data, "csharp".data)
  , (".rb".data, "ruby".data)
  , (".go".data, "go".data)
  , (".rs".data, "rust".data)
  , (".php".data, "php".data)
  , (".kt".data, "kotlin".data)
  , (".swift".data, "swift".data)
  , (".md".data, "markdown".data)
  , (".txt".data, "text".data)
  , (".json".data, "json".data)
  , (".yaml".data, "yaml".data)
  , (".yml".data, "yaml".data)
  , (".xml".data, "xml".data)
  , (".html".data, "html".data)
  , (".css".data, "css".data)
  , (".scss".data, "scss".data)
  , (".sass".data, "sass".data)
  , (".sql".data, "sql".data) ]

/-- `LANGUAGE_EXTENSIONS[extension] || 'text'` (part_004 line 155; all table
values are non-empty, so JS falsiness is just absence here). -/
def languageOf (ext : Str) : Str :=
  match langExts.find? (fun p => decide (p.1 = ext)) with
  | some p => p.2
  | none => "text".data

/-- `CodeProcessor.processFile` (part_004 lines 151-181), taking the already
read file `content`, the `relativePath` and the file extension. -/
def processFile (maxCS ov : Nat) (content relativePath ext : Str) : List Document :=
  let language := languageOf ext
  if language = "markdown".data ∨ language = "text".data then
    docDocsLoop relativePath language (chunkText maxCS ov content) 0
  else
    chunkCode maxCS ov content relativePath language

/-! Document-id disjointness (claims C4 and C5). -/

theorem map_digitChar_inj : ∀ {l1 l2 : List Nat}, (∀ d ∈ l1, d < 10) → (∀ d ∈ l2, d < 10) →
    l1.map Nat.digitChar = l2.map Nat.digitChar → l1 = l2 := by
  intro l1
  induction l1 with
  | nil =>
    intro l2 _ _ h
    cases l2 with
    | nil => rfl
    | cons d t => simp at h
  | cons d1 t1 ih =>
    intro l2 h1 h2 h
    cases l2 with
    | nil => simp at h
    | cons d2 t2 =>
      simp only [List.map_cons, List.cons.injEq] at h
      have hd : d1 = d2 := by
        have hlt1 : d1 < 10 := h1 d1 (by simp)
        have hlt2 : d2 < 10 := h2 d2 (by simp)
        have hinj : ∀ x, x < 10 → ∀ y, y < 10 → Nat.digitChar x = Nat.digitChar y → x = y := by
          decide
        exact hinj d1 hlt1 d2 hlt2 h.1
      have ht : t1 = t2 :=
        ih (by intro d hd2; exact h1 d (by simp [hd2])) (by intro d hd2; exact h2 d (by simp [hd2])) h.2
      rw [hd, ht]

theorem natToChars_inj : ∀ {a b : Nat}, natToChars a = natToChars b → a = b := by
  have key : ∀ {m : Nat}, m ≠ 0 → ((Nat.digits 10 m).map Nat.digitChar).reverse ≠ ['0'] := by
    intro m hm h
    have h2 : (Nat.digits 10 m).map Nat.digitChar = ['0'] := by
      have := congrArg List.reverse h
      simpa using this
    cases hd : Nat.digits 10 m with
    | nil => rw [hd] at h2; simp at h2
    | cons d t =>
      rw [hd] at h2
      cases t with
      | nil =>
        simp only [List.map_cons, List.map_nil, List.cons.injEq, and_true] at h2
        have hdlt : d < 10 := Nat.digits_lt_base (by norm_num) (by rw [hd]; simp)
        have hd0 : d = 0 := by
          have hinj : ∀ x, x < 10 → Nat.digitChar x = '0' → x = 0 := by decide
          exact hinj d hdlt h2
        have := Nat.ofDigits_digits 10 m
        rw [hd, hd0] at this
        simp [Nat.ofDigits] at this
        exact hm this.symm
      | cons d2 t2 => simp at h2
  intro a b h
  unfold natToChars at h
  by_cases ha : a = 0 <;> by_cases hb : b = 0
  · rw [ha, hb]
  · rw [if_pos ha, if_neg hb] at h
    exact absurd h.symm (key hb)
  · rw [if_neg ha, if_pos hb] at h
    exact absurd h (key ha)
  · rw [if_neg ha, if_neg hb] at h
    have hmap := List.reverse_inj.mp h
    have hd := map_digitChar_inj
      (by intro d hd; exact Nat.digits_lt_base (by norm_num) hd)
      (by intro d hd; exact Nat.digits_lt_base (by norm_num) hd) hmap
    calc a = Nat.ofDigits 10 (Nat.digits 10 a) := (Nat.ofDigits_digits 10 a).symm
      _ = Nat.ofDigits 10 (Nat.digits 10 b) := by rw [hd]
      _ = b := Nat.ofDigits_digits 10 b

theorem functionStr_eq : ("function".data : Str) = ['f','u','n','c','t','i','o','n'] := rfl

theorem classStr_eq : ("class".data : Str) = ['c','l','a','s','s'] := rfl

theorem chunkStr_eq : ("chunk".data : Str) = ['c','h','u','n','k'] := rfl

theorem docStr_eq : ("doc".data : Str) = ['d','o','c'] := rfl

/-- Equal structural-element ids (same file) force equal type and name. -/
theorem structDoc_id_inj {fp lang : Str} {e1 e2 : StructElem}
    (h : (structDoc fp lang e1).id = (structDoc fp lang e2).id) :
    e1.ty = e2.ty ∧ e1.name = e2.name := by
  simp only [structDoc] at h
  have h2 := List.append_cancel_left h
  simp only [List.cons.injEq, true_and] at h2
  cases hty1 : e1.ty <;> cases hty2 : e2.ty <;>
    rw [hty1, hty2] at h2 <;>
    simp only [sTypeStr, functionStr_eq, classStr_eq, List.cons_append, List.nil_append,
      List.cons.injEq, true_and] at h2
  · exact ⟨rfl, h2⟩
  · exact absurd h2.1 (by decide)
  · exact absurd h2.1 (by decide)
  · exact ⟨rfl, h2⟩

/-- A structural-element id never equals a windowed-chunk id. -/
theorem structDoc_id_ne_chunk (fp lang : Str) (e : StructElem) (j : Nat) :
    (structDoc fp lang e).id ≠ fp ++ ':' :: ("chunk".data ++ ':' :: natToChars j) := by
  intro h
  simp only [structDoc] at h
  have h2 := List.append_cancel_left h
  simp only [List.cons.injEq, true_and] at h2
  cases hty : e.ty <;> rw [hty] at h2 <;>
    simp only [sTypeStr, functionStr_eq, classStr_eq, chunkStr_eq, List.cons_append,
      List.nil_append, List.cons.injEq] at h2
  · exact absurd h2.1 (by decide)
  · exact absurd h2.2.1 (by decide)

/-- Ids in the windowed-chunk document list all carry an index at least `i`. -/
theorem chunkDocsLoop_id_shape (fp lang : Str) :
    ∀ cs i d, d ∈ chunkDocsLoop fp lang cs i →
      ∃ j, i ≤ j ∧ d.id = fp ++ ':' :: ("chunk".data ++ ':' :: natToChars j) := by
  intro cs
  induction cs with
  | nil =>
    intro i d hd
    simp [chunkDocsLoop] at hd
  | cons c cs ih =>
    intro i d hd
    simp only [chunkDocsLoop, List.mem_append] at hd
    rcases hd with hd | hd
    · refine ⟨i, le_refl i, ?_⟩
      split at hd
      · simp at hd
      · simp at hd
        rw [hd]
        rfl
    · obtain ⟨j, hj, hid⟩ := ih (i + 1) d hd
      exact ⟨j, by omega, hid⟩

/-- Windowed-chunk document ids are pairwise distinct (indices increase). -/
theorem chunkDocsLoop_pairwise (fp lang : Str) :
    ∀ cs i, (chunkDocsLoop fp lang cs i).Pairwise (fun a b => a.id ≠ b.id) := by
  intro cs
  induction cs with
  | nil => intro i; simp [chunkDocsLoop]
  | cons c cs ih =>
    intro i
    simp only [chunkDocsLoop]
    split
    · simp only [List.nil_append]
      exact ih (i + 1)
    · simp only [List.singleton_append]
      refine List.Pairwise.cons ?_ (ih (i + 1))
      intro d hd h
      obtain ⟨j, hj, hid⟩ := chunkDocsLoop_id_shape fp lang cs (i + 1) d hd
      rw [hid] at h
      have h2 := List.append_cancel_left h
      simp only [List.cons.injEq, true_and] at h2
      have h3 := List.append_cancel_left h2
      simp only [List.cons.injEq, true_and] at h3
      have := natToChars_inj h3
      omega

/-- Doc-file document ids all carry an index at least `i`. -/
theorem docDocsLoop_id_shape (fp lang : Str) :
    ∀ cs i d, d ∈ docDocsLoop fp lang cs i →
      ∃ j, i ≤ j ∧ d.id = fp ++ ':' :: ("doc".data ++ ':' :: natToChars j) := by
  intro cs
  induction cs with
  | nil =>
    intro i d hd
    simp [docDocsLoop] at hd
  | cons c cs ih =>
    intro i d hd
    simp only [docDocsLoop, List.mem_cons] at hd
    rcases hd with hd | hd
    · refine ⟨i, le_refl i, ?_⟩
      rw [hd]
    · obtain ⟨j, hj, hid⟩ := ih (i + 1) d hd
      exact ⟨j, by omega, hid⟩

/-- Doc-file document ids are pairwise distinct. -/
theorem docDocsLoop_pairwise (fp lang : Str) :
    ∀ cs i, (docDocsLoop fp lang cs i).Pairwise (fun a b => a.id ≠ b.id) := by
  intro cs
  induction cs with
  | nil => intro i; simp [docDocsLoop]
  | cons c cs ih =>
    intro i
    simp only [docDocsLoop]
    refine List.Pairwise.cons ?_ (ih (i + 1))
    intro d hd h
    obtain ⟨j, hj, hid⟩ := docDocsLoop_id_shape fp lang cs (i + 1) d hd
    rw [hid] at h
    have h2 := List.append_cancel_left h
    simp only [List.cons.injEq, true_and] at h2
    have h3 := List.append_cancel_left h2
    simp only [List.cons.injEq, true_and] at h3
    have := natToChars_inj h3
    omega

/-- C4, refuting counterexample input: two Python functions with the same
name in one file. -/
def c4content : Str := "def f():\n  pass\ndef f():\n  pass".data

/-- Claim C4 as stated is false: two same-named functions in one file yield
the same structural document id twice (`a.py:function:f`). -/
theorem claim_C4_counterexample :
    ¬ ((processFile defaultMaxChunkSize defaultOverlapSize c4content
        ("a.py".data) (".py".data)).map (fun d => d.id)).Nodup := by
  decide

/-- C4 (amended): within one file, all generated document ids are pairwise
distinct provided no two extracted structural elements share both type and
name.  (Two same-typed, same-named elements collide —
`claim_C4_counterexample`; windowed/doc ids and cross-kind pairs never
collide.) -/
theorem claim_C4 (maxCS ov : Nat) (content relativePath ext : Str)
    (H : (extractStructuralElements content (languageOf ext)).Pairwise
      (fun a b => a.ty ≠ b.ty ∨ a.name ≠ b.name)) :
    ((processFile maxCS ov content relativePath ext).map (fun d => d.id)).Nodup := by
  simp only [processFile]
  split
  · exact List.Pairwise.map _ (fun a b h => h) (docDocsLoop_pairwise relativePath _ _ 0)
  · unfold chunkCode
    rw [List.map_append]
    rw [List.nodup_append]
    refine ⟨?_, ?_, ?_⟩
    · rw [List.map_map]
      refine List.Pairwise.map _ ?_ H
      intro a b hab hid
      rcases structDoc_id_inj hid with ⟨hty, hname⟩
      rcases hab with hab | hab
      · exact hab hty
      · exact hab hname
    · exact List.Pairwise.map _ (fun a b h => h)
        (chunkDocsLoop_pairwise relativePath _ _ 0)
    · intro x hx hy
      rw [List.map_map, List.mem_map] at hx
      rw [List.mem_map] at hy
      obtain ⟨e, _, hex⟩ := hx
      obtain ⟨d, hd, hdy⟩ := hy
      obtain ⟨j, _, hid⟩ := chunkDocsLoop_id_shape relativePath _ _ 0 d hd
      apply structDoc_id_ne_chunk relativePath (languageOf ext) e j
      simp only [Function.comp] at hex
      rw [hex, ← hdy, hid]

/-- Witness for C4 at a concrete input (two differently named functions). -/
theorem claim_C4_witness :
    ((processFile 1000 100 ("def f():\n  pass\ndef g():\n  pass".data)
      ("a.py".data) (".py".data)).map (fun d => d.id)).Nodup :=
  claim_C4 1000 100 ("def f():\n  pass\ndef g():\n  pass".data)
    ("a.py".data) (".py".data) (by decide)

/-! An upsert-by-id store (the spec's idempotent re-indexing model, claim
C5): insert keeps the existing entry for an already-present id. -/

/-- Upsert one id into the stored id list. -/
def upsert (s : List Str) (i : Str) : List Str := if i ∈ s then s else s ++ [i]

/-- Upsert a batch of ids in order. -/
def upsertAll (s : List Str) (l : List Str) : List Str := l.foldl upsert s

theorem mem_upsert_of_mem {a : Str} {s : List Str} (b : Str) (h : a ∈ s) :
    a ∈ upsert s b := by
  unfold upsert
  split
  · exact h
  · exact List.mem_append_left _ h

theorem mem_upsertAll_of_mem_state {a : Str} : ∀ (l : List Str) (s : List Str),
    a ∈ s → a ∈ upsertAll s l := by
  intro l
  induction l with
  | nil => intro s h; exact h
  | cons x t ih => intro s h; exact ih (upsert s x) (mem_upsert_of_mem x h)

theorem mem_upsert_self (s : List Str) (a : Str) : a ∈ upsert s a := by
  unfold upsert
  split
  · assumption
  · exact List.mem_append_right _ (by simp)

theorem mem_upsertAll_of_mem_list {a : Str} : ∀ (l : List Str) (s : List Str),
    a ∈ l → a ∈ upsertAll s l := by
  intro l
  induction l with
  | nil => intro s h; simp at h
  | cons x t ih =>
    intro s h
    rcases List.mem_cons.mp h with h | h
    · rw [h]
      exact mem_upsertAll_of_mem_state t (upsert s x) (mem_upsert_self s x)
    · exact ih (upsert s x) h

theorem upsertAll_eq_self : ∀ (l : List Str) (s : List Str),
    (∀ a ∈ l, a ∈ s) → upsertAll s l = s := by
  intro l
  induction l with
  | nil => intro s _; rfl
  | cons x t ih =>
    intro s h
    unfold upsertAll
    simp only [List.foldl_cons]
    have hx : upsert s x = s := by
      unfold upsert
      rw [if_pos (h x (by simp))]
    rw [hx]
    exact ih s (fun a ha => h a (by simp [ha]))

/-- C5 (confirmed): document-id generation is a pure function of the file
content, relative path and extension, so two runs over an unchanged file
yield identical id lists; and replaying the same batch of ids into an
upsert-by-id store leaves the store (hence its document count) unchanged. -/
theorem claim_C5 (maxCS ov : Nat) (content relativePath ext : Str) :
    ((processFile maxCS ov content relativePath ext).map (fun d => d.id) =
      (processFile maxCS ov content relativePath ext).map (fun d => d.id)) ∧
    upsertAll
        (upsertAll [] ((processFile maxCS ov content relativePath ext).map (fun d => d.id)))
        ((processFile maxCS ov content relativePath ext).map (fun d => d.id)) =
      upsertAll [] ((processFile maxCS ov content relativePath ext).map (fun d => d.id)) := by
  refine ⟨rfl, ?_⟩
  apply upsertAll_eq_self
  intro a ha
  exact mem_upsertAll_of_mem_list _ [] ha

/-! VectorStore (src/vector/client.ts) and the benchmark embedding cache
(scripts/enhanced-benchmark.ts).  The external embedding model is an oracle
function `Str → Vec`; `embedCalls` instruments how many times the code
actually invokes it (`await this.embedder(...)`). -/

/-- Embedding vectors: the numeric contents are irrelevant to every claim, so
vectors stay abstract lists of integers produced by the oracle. -/
abbrev Vec := List Int

/-- A thrown JS value at the tool boundary: an `Error` carrying a message, or
any other value (`error instanceof Error ? error.message : 'Unknown error'`). -/
inductive Thrown where
  | errObj : Str → Thrown
  | other : Thrown
deriving DecidableEq, Repr

/-- The per-text loop of `VectorStore.generateEmbeddings` (client.ts lines
75-88): one embedder invocation per text, in order.  The second component
threads the embedder invocation counter. -/
def generateEmbeddingsLoop (f : Str → Vec) : List Str → Nat → List Vec × Nat
  | [], calls => ([], calls)
  | t :: ts, calls =>
    let e := f t
    let r := generateEmbeddingsLoop f ts (calls + 1)
    (e :: r.1, r.2)

/-- `VectorStore.generateEmbeddings` (client.ts lines 70-89): throws when the
embedder is absent, otherwise maps the oracle over the texts with no caching
of any kind. -/
def generateEmbeddings (embedder : Option (Str → Vec)) (texts : List Str)
    (calls : Nat) : Except Thrown (List Vec × Nat) :=
  match embedder with
  | none => .error (.errObj ("Embedder not initialized".data))
  | some f => .ok (generateEmbeddingsLoop f texts calls)

/-- State of the benchmark's embedding cache (enhanced-benchmark.ts lines
29-31 and 358-371): the `Map` from cache key to vector, the hit/miss
counters, and the embedder invocation counter instrumentation. -/
structure BenchSt where
  cache : List (Str × Vec)
  cacheHits : Nat
  cacheMisses : Nat
  embedCalls : Nat
deriving DecidableEq, Repr

/-- Fresh benchmark state (empty `Map`, zeroed counters). -/
def benchInit : BenchSt := ⟨[], 0, 0, 0⟩

/-- JS `Map.get` (string keys). -/
def mapGet (m : List (Str × Vec)) (k : Str) : Option Vec :=
  match m.find? (fun p => decide (p.1 = k)) with
  | some p => some p.2
  | none => none

/-- JS `Map.set` (replace an existing key, else append). -/
def mapSet (m : List (Str × Vec)) (k : Str) (v : Vec) : List (Str × Vec) :=
  match m with
  | [] => [(k, v)]
  | p :: rest => if p.1 = k then (k, v) :: rest else p :: mapSet rest k v

/-- `cachedEmbedding` of the benchmark script (enhanced-benchmark.ts lines
358-371): key `"embed_" + text`; on hit return the cached vector, on miss
invoke the embedder once, store and return. -/
def cachedEmbedding (f : Str → Vec) (text : Str) (s : BenchSt) : Vec × BenchSt :=
  let cacheKey := ("embed_".data) ++ text
  match mapGet s.cache cacheKey with
  | some v => (v, { s with cacheHits := s.cacheHits + 1 })
  | none =>
    let v := f text
    (v, { s with
          cacheMisses := s.cacheMisses + 1
        , embedCalls := s.embedCalls + 1
        , cache := mapSet s.cache cacheKey v })

/-- Claim C6 as stated is false for the cited `VectorStore.generateEmbeddings`
path: requesting the same text twice performs two embedder invocations, not
one — there is no cache in `VectorStore`. -/
theorem claim_C6_counterexample :
    (generateEmbeddings (some (fun t => [Int.ofNat t.length])) [['x']] 0 =
      .ok ([[1]], 1)) ∧
    (generateEmbeddings (some (fun t => [Int.ofNat t.length])) [['x']] 1 =
      .ok ([[1]], 2)) ∧ (2 : Nat) ≠ 1 := by
  refine ⟨rfl, rfl, by decide⟩

/-- C6 (amended): `VectorStore.generateEmbeddings` recomputes on every call —
two identical requests return equal vectors (the embedder being a function)
but perform two embedder invocations; the only embedding cache in the
repository is the benchmark script's `cachedEmbedding`, which does satisfy
the claim: the second identical request is a cache hit returning the stored
vector with no further embedder invocation (one invocation total from an
empty cache). -/
theorem claim_C6 (f : Str → Vec) (t : Str) (calls0 : Nat) :
    (∀ r1 : List Vec × Nat, generateEmbeddings (some f) [t] calls0 = .ok r1 →
      ∀ r2 : List Vec × Nat, generateEmbeddings (some f) [t] r1.2 = .ok r2 →
        r1.1 = r2.1 ∧ r2.2 = calls0 + 2) ∧
    ((cachedEmbedding f t benchInit).1 =
        (cachedEmbedding f t (cachedEmbedding f t benchInit).2).1 ∧
      (cachedEmbedding f t (cachedEmbedding f t benchInit).2).2.embedCalls = 1 ∧
      (cachedEmbedding f t (cachedEmbedding f t benchInit).2).2.cacheHits = 1 ∧
      (cachedEmbedding f t (cachedEmbedding f t benchInit).2).2.cacheMisses = 1) := by
  constructor
  · intro r1 h1 r2 h2
    simp only [generateEmbeddings, generateEmbeddingsLoop, Except.ok.injEq] at h1 h2
    rw [← h1, ← h2]
    simp [← h1]
  · have h0 : ∀ K : Str, mapGet [] K = none := fun _ => rfl
    have h1 : ∀ (K : Str) (v : Vec), mapSet [] K v = [(K, v)] := fun _ _ => rfl
    have h2 : ∀ (K : Str) (v : Vec), mapGet [(K, v)] K = some v := by
      intro K v
      simp [mapGet, List.find?_cons]
    simp [cachedEmbedding, benchInit, h0, h1, h2]

/-- Concrete embedder oracle used by the C6 witness. -/
def c6f : Str → Vec := fun t => [Int.ofNat t.length]

/-- Witness for C6 at a concrete oracle and text. -/
theorem claim_C6_witness :
    ((([[(1 : Int)]], (1 : Nat)) : List Vec × Nat).1 =
        ((([[(1 : Int)]], (2 : Nat)) : List Vec × Nat)).1 ∧
      ((([[(1 : Int)]], (2 : Nat)) : List Vec × Nat)).2 = 0 + 2) ∧
    ((cachedEmbedding c6f ['x'] benchInit).1 =
        (cachedEmbedding c6f ['x'] (cachedEmbedding c6f ['x'] benchInit).2).1 ∧
      (cachedEmbedding c6f ['x'] (cachedEmbedding c6f ['x'] benchInit).2).2.embedCalls = 1 ∧
      (cachedEmbedding c6f ['x'] (cachedEmbedding c6f ['x'] benchInit).2).2.cacheHits = 1 ∧
      (cachedEmbedding c6f ['x'] (cachedEmbedding c6f ['x'] benchInit).2).2.cacheMisses = 1) :=
  ⟨(claim_C6 c6f ['x'] 0).1 ([[1]], 1) rfl ([[1]], 2) rfl, (claim_C6 c6f ['x'] 0).2⟩

/-! Search-result mapping (claim C7): `VectorStore.search`, client.ts lines
139-166.  Distances are floats only ever combined by `1 - d`, modelled as
`ℚ`.  The store returns one row per query; the `[0]` row indexing of the
regional response is flattened into the row lists here. -/

/-- A metadata record as stored by `addDocuments` (client.ts lines 105-114);
`type`/`function`/`class` are Lean keywords, hence `mtype`/`functionName`/
`className`. -/
structure ChromaMeta where
  filepath : Str
  mtype : Str
  language : Str
  lines_start : Nat
  lines_end : Nat
  functionName : Str
  className : Str
  content : Str
deriving DecidableEq, Repr, Inhabited

/-- The store's query response (`results.ids`, `results.documents`,
`results.metadatas`, `results.distances`, each possibly absent). -/
structure QueryResponse where
  ids : Option (List Str)
  documents : Option (List Str)
  metadatas : Option (List ChromaMeta)
  distances : Option (List ℚ)

/-- `SearchResult` (client.ts lines 19-24, metadata flattened). -/
structure SearchResult where
  id : Str
  content : Str
  filepath : Str
  mtype : Str
  language : Str
  lines : Option (Nat × Nat)
  functionName : Option Str
  className : Option Str
  score : ℚ
deriving DecidableEq, Repr

/-- One iteration of the result-building loop of `search` (client.ts lines
145-164): `score: 1 - (results.distances?.[0][i] || 0)`, `lines` only when
`lines_start > 0`, `function`/`class` only when non-empty (JS `|| undefined`).
Out-of-range reads use the JS-undefined-like defaults. -/
def mkSearchResult (ids0 docs0 : List Str) (metas0 : List ChromaMeta)
    (dists0 : List ℚ) (i : Nat) : SearchResult :=
  let md := metas0.getD i default
  { id := ids0.getD i []
  , content := docs0.getD i []
  , filepath := md.filepath
  , mtype := md.mtype
  , language := md.language
  , lines := if 0 < md.lines_start then some (md.lines_start, md.lines_end) else none
  , functionName := if md.functionName = [] then none else some md.functionName
  , className := if md.className = [] then none else some md.className
  , score := 1 - dists0.getD i 0 }

/-- The result-mapping step of `VectorStore.search` (client.ts lines 139-166):
empty list when any response field is missing, else one `SearchResult` per id
(`for (let i = 0; i < results.ids[0].length; i++)`). -/
def searchResultsOf (resp : QueryResponse) : List SearchResult :=
  match resp.ids, resp.documents, resp.metadatas, resp.distances with
  | some ids0, some docs0, some metas0, some dists0 =>
    (List.range ids0.length).map (mkSearchResult ids0 docs0 metas0 dists0)
  | _, _, _, _ => []

/-- C7, refuting response: the external store reports distance 2 (possible
for squared-L2 or cosine distance), making the score negative. -/
def c7resp : QueryResponse :=
  ⟨some [['i']], some [['c']], some [⟨[], [], [], 0, 0, [], [], []⟩], some [2]⟩

/-- Claim C7 as stated is false: the code computes `1 - distance` without
clamping, so a reported distance of 2 yields score `-1 ∉ [0, 1]`. -/
theorem claim_C7_counterexample :
    (searchResultsOf c7resp).map (fun r => r.score) = [-1] ∧
    ¬ (0 ≤ (-1 : ℚ) ∧ (-1 : ℚ) ≤ 1) := by
  constructor
  · simp only [searchResultsOf, c7resp]
    rw [show List.range (List.length [['i']]) = [0] from rfl]
    simp only [List.map_cons, List.map_nil, Function.comp, mkSearchResult]
    norm_num [List.getD]
  · norm_num

/-- C7 (amended): every returned score equals `1 -` the reported distance
(with missing distances defaulting to 0); the `[0, 1]` range additionally
requires every reported distance to lie in `[0, 1]`, which the code does not
enforce (`claim_C7_counterexample`). -/
theorem claim_C7 (ids0 docs0 : List Str) (metas0 : List ChromaMeta) (dists0 : List ℚ) :
    ((searchResultsOf ⟨some ids0, some docs0, some metas0, some dists0⟩).map
        (fun r => r.score) =
      (List.range ids0.length).map (fun i => 1 - dists0.getD i 0)) ∧
    ((∀ d ∈ dists0, 0 ≤ d ∧ d ≤ 1) →
      ∀ r ∈ searchResultsOf ⟨some ids0, some docs0, some metas0, some dists0⟩,
        0 ≤ r.score ∧ r.score ≤ 1) := by
  constructor
  · rw [searchResultsOf, List.map_map]
    rfl
  · intro H r hr
    rw [searchResultsOf, List.mem_map] at hr
    obtain ⟨i, _, hri⟩ := hr
    have hscore : r.score = 1 - dists0.getD i 0 := by rw [← hri]; rfl
    by_cases hi : i < dists0.length
    · have hmem : dists0.getD i 0 ∈ dists0 := by
        rw [List.getD_eq_getElem?_getD, List.getElem?_eq_getElem hi]
        exact List.getElem_mem hi
      have := H _ hmem
      constructor <;> [linarith [this.2]; linarith [this.1]]
    · push_neg at hi
      rw [List.getD_eq_default _ _ hi] at hscore
      rw [hscore]
      norm_num

/-- Witness for C7 at a concrete in-range distance. -/
theorem claim_C7_witness :
    ((searchResultsOf ⟨some [['i']], some [['c']],
        some [⟨[], [], [], 0, 0, [], [], []⟩], some [(1 : ℚ)/2]⟩).map (fun r => r.score) =
      (List.range ([['i']] : List Str).length).map (fun i => 1 - ([(1 : ℚ)/2]).getD i 0)) ∧
    (∀ r ∈ searchResultsOf ⟨some [['i']], some [['c']],
        some [⟨[], [], [], 0, 0, [], [], []⟩], some [(1 : ℚ)/2]⟩,
      0 ≤ r.score ∧ r.score ≤ 1) :=
  ⟨(claim_C7 [['i']] [['c']] [⟨[], [], [], 0, 0, [], [], []⟩] [(1 : ℚ)/2]).1,
    (claim_C7 [['i']] [['c']] [⟨[], [], [], 0, 0, [], [], []⟩] [(1 : ℚ)/2]).2
      (by intro d hd; rw [List.mem_singleton] at hd; rw [hd]; norm_num)⟩

/-! The MCP tool-call boundary (claims C8 and C9): mcp.ts. -/

/-- `TextContent` payload of a tool result. -/
structure TextContent where
  text : Str
deriving DecidableEq, Repr

/-- `CallToolResult`: the `content` array of text payloads. -/
structure CallToolResult where
  content : List TextContent
deriving DecidableEq, Repr

/-- `error instanceof Error ? error.message : 'Unknown error'` (mcp.ts line
128). -/
def errorMessageOf : Thrown → Str
  | .errObj m => m
  | .other => "Unknown error".data

/-- The `switch` over tool names (mcp.ts lines 115-126); the four handlers
are oracle parameters (each may throw), unknown names throw. -/
def callToolInner {α : Type} (hS hI hSt hC : α → Except Thrown CallToolResult)
    (name : Str) (args : α) : Except Thrown CallToolResult :=
  if name = "search_codebase".data then hS args
  else if name = "index_codebase".data then hI args
  else if name = "get_index_stats".data then hSt args
  else if name = "clear_index".data then hC args
  else .error (.errObj (("Unknown tool: ".data) ++ name))

/-- The tool-call request handler with its `try`/`catch` boundary (mcp.ts
lines 111-138): every thrown value becomes a normal result with a single
`Error: `-prefixed text payload. -/
def callToolHandler {α : Type} (hS hI hSt hC : α → Except Thrown CallToolResult)
    (name : Str) (args : α) : CallToolResult :=
  match callToolInner hS hI hSt hC name args with
  | .ok r => r
  | .error e => { content := [⟨("Error: ".data) ++ errorMessageOf e⟩] }

/-- C8 (confirmed): for each of the four tools, when its handler throws, the
request handler returns a normal result whose content is exactly one text
payload `"Error: " ++ message` — no protocol-level fault. -/
theorem claim_C8 {α : Type} (hS hI hSt hC : α → Except Thrown CallToolResult)
    (name : Str) (args : α) (t : Thrown)
    (_hname : name = "search_codebase".data ∨ name = "index_codebase".data ∨
      name = "get_index_stats".data ∨ name = "clear_index".data)
    (hthrow : callToolInner hS hI hSt hC name args = .error t) :
    callToolHandler hS hI hSt hC name args =
      { content := [⟨("Error: ".data) ++ errorMessageOf t⟩] } := by
  unfold callToolHandler
  rw [hthrow]

/-- Witness for C8: a `search_codebase` handler that throws. -/
theorem claim_C8_witness :
    callToolHandler (fun _ : Unit => .error (.errObj ("boom".data)))
      (fun _ => .ok ⟨[]⟩) (fun _ => .ok ⟨[]⟩) (fun _ => .ok ⟨[]⟩)
      ("search_codebase".data) () =
      { content := [⟨("Error: ".data) ++ errorMessageOf (.errObj ("boom".data))⟩] } :=
  claim_C8 _ _ _ _ ("search_codebase".data) () (.errObj ("boom".data))
    (Or.inl rfl) rfl

/-! Clear-index state machine (claim C9): mcp.ts lines 262-291 together with
`VectorStore.deleteCollection` / `clearCache` / `getCount` (client.ts lines
173-203). -/

/-- Joint server/store/external state: `isReady`, `isInitialized`, the
external collection contents (`none` = absent/deleted) and the on-disk cache
directory. -/
structure ServerSt where
  ready : Bool
  storeInit : Bool
  collection : Option (List Str)
  cacheDir : Bool
deriving DecidableEq, Repr

/-- `VectorStore.initialize` (client.ts lines 39-68, success path):
`getOrCreateCollection` keeps an existing collection and creates an empty one
otherwise. -/
def vsInitialize (st : ServerSt) : ServerSt :=
  { st with storeInit := true, collection := some (st.collection.getD []) }

/-- `if (!this.isReady) await this.initialize()` (mcp.ts lines 263-265 via
lines 293-305). -/
def serverEnsureReady (st : ServerSt) : ServerSt :=
  if st.ready then st else { vsInitialize st with ready := true }

/-- `VectorStore.deleteCollection` (client.ts lines 173-182): no-op when not
initialized; external errors are swallowed. -/
def vsDeleteCollection (st : ServerSt) : ServerSt :=
  if st.storeInit then { st with collection := none } else st

/-- `VectorStore.clearCache` (client.ts lines 196-203): removes the cache
directory. -/
def vsClearCache (st : ServerSt) : ServerSt := { st with cacheDir := false }

/-- `VectorStore.getCount` (client.ts lines 184-194): 0 when not initialized;
`collection.count()` on a deleted collection throws and the catch returns 0. -/
def vsGetCount (st : ServerSt) : Nat :=
  if st.storeInit then
    match st.collection with
    | some ds => ds.length
    | none => 0
  else 0

/-- Number of documents physically present in the external store. -/
def storedCount (st : ServerSt) : Nat :=
  match st.collection with
  | some ds => ds.length
  | none => 0

/-- `RAGServer.handleClearIndex` (mcp.ts lines 262-291). -/
def handleClearIndex (confirm : Bool) (st : ServerSt) : Str × ServerSt :=
  let st1 := serverEnsureReady st
  if !confirm then
    ("Index clearing cancelled. Set confirm=true to proceed.".data, st1)
  else
    ("Vector database index cleared successfully.".data,
      vsClearCache (vsDeleteCollection st1))

/-- C9 (confirmed): with `confirm=false` the handler returns the cancellation
message and the stored document count is unchanged; with `confirm=true` it
deletes the collection and cache, the observable and stored counts drop to
zero, and the cleared confirmation is returned. -/
theorem claim_C9 (st : ServerSt) (hinit : st.ready = true → st.storeInit = true) :
    ((handleClearIndex false st).1 =
        "Index clearing cancelled. Set confirm=true to proceed.".data ∧
      storedCount (handleClearIndex false st).2 = storedCount st) ∧
    ((handleClearIndex true st).1 =
        "Vector database index cleared successfully.".data ∧
      vsGetCount (handleClearIndex true st).2 = 0 ∧
      storedCount (handleClearIndex true st).2 = 0 ∧
      (handleClearIndex true st).2.cacheDir = false) := by
  obtain ⟨r, si, col, cd⟩ := st
  cases r with
  | true =>
    have hsi : si = true := hinit rfl
    subst hsi
    cases col <;>
      simp [handleClearIndex, serverEnsureReady, vsInitialize, vsDeleteCollection,
        vsClearCache, vsGetCount, storedCount]
  | false =>
    cases col <;>
      simp [handleClearIndex, serverEnsureReady, vsInitialize, vsDeleteCollection,
        vsClearCache, vsGetCount, storedCount]

/-- Witness for C9 at a concrete not-yet-initialized server state holding one
stored document. -/
theorem claim_C9_witness :
    ((handleClearIndex false ⟨false, false, some [['d']], true⟩).1 =
        "Index clearing cancelled. Set confirm=true to proceed.".data ∧
      storedCount (handleClearIndex false ⟨false, false, some [['d']], true⟩).2 =
        storedCount ⟨false, false, some [['d']], true⟩) ∧
    ((handleClearIndex true ⟨false, false, some [['d']], true⟩).1 =
        "Vector database index cleared successfully.".data ∧
      vsGetCount (handleClearIndex true ⟨false, false, some [['d']], true⟩).2 = 0 ∧
      storedCount (handleClearIndex true ⟨false, false, some [['d']], true⟩).2 = 0 ∧
      (handleClearIndex true ⟨false, false, some [['d']], true⟩).2.cacheDir = false) :=
  claim_C9 ⟨false, false, some [['d']], true⟩ (by intro h; exact absurd h (by decide))

/-! `VectorStore.addDocuments` (claim C10): client.ts lines 91-123. -/

/-- VectorStore state for `addDocuments`: the initialized flag, the external
collection (`none` = absent) and the embedder invocation counter. -/
structure VSt where
  storeInit : Bool
  collection : Option (List Str)
  embedCalls : Nat
deriving DecidableEq, Repr

/-- `VectorStore.addDocuments` (client.ts lines 91-123): throws when not
initialized (before anything else), returns immediately on an empty batch,
otherwise embeds every document content and appends the ids to the external
collection (`collection.add`); external failures propagate (the catch at
lines 119-122 rethrows). -/
def vsAddDocuments (embedder : Option (Str → Vec)) (docs : List Document)
    (st : VSt) : Except Thrown VSt :=
  if !st.storeInit then .error (.errObj ("Vector store not initialized".data))
  else if docs.length = 0 then .ok st
  else
    match generateEmbeddings embedder (docs.map (fun d => d.content)) st.embedCalls with
    | .error e => .error e
    | .ok r =>
      match st.collection with
      | some ids =>
        .ok { st with
              embedCalls := r.2,
              collection := some (ids ++ docs.map (fun d => d.id)) }
      | none => .error (.errObj ("Failed to add documents".data))

/-- C10 (confirmed): on an initialized store, `addDocuments([])` returns
normally with the state — embedder counter and collection included — exactly
unchanged; on an uninitialized store it throws even for the empty batch. -/
theorem claim_C10 (embedder : Option (Str → Vec)) (st : VSt) :
    (st.storeInit = true → vsAddDocuments embedder [] st = .ok st) ∧
    (st.storeInit = false → vsAddDocuments embedder [] st =
      .error (.errObj ("Vector store not initialized".data))) := by
  constructor
  · intro h
    simp [vsAddDocuments, h]
  · intro h
    simp [vsAddDocuments, h]

/-- Witness for C10 at concrete states. -/
theorem claim_C10_witness :
    vsAddDocuments none [] ⟨true, some [], 0⟩ = .ok ⟨true, some [], 0⟩ ∧
    vsAddDocuments none [] ⟨false, none, 0⟩ =
      .error (.errObj ("Vector store not initialized".data)) :=
  ⟨(claim_C10 none ⟨true, some [], 0⟩).1 rfl, (claim_C10 none ⟨false, none, 0⟩).2 rfl⟩

end Rag

